import Mathlib

/-!
Verification of the deal-ledger engine of the pumble-blitz-bot repository
(`src/app.py`, `src/google_sheet.py`).

The Python code is shallowly embedded: message texts are lists of
characters, spreadsheet rows are records, timestamps (Python
`datetime` values in the fixed PST zone) are a year/month/day/seconds
structure compared lexicographically exactly as `datetime` comparison
does, and Python `float` package sizes are modelled as exact rationals.
Fallible Python code (functions that raise `ValueError` / `TypeError`)
is modelled with `Except` / explicit error effects.
-/

/-! ## Time model

Python `datetime` values (always in the single PST zone in this code)
are embedded as year/month/day plus seconds-within-day.  `datetime`
comparison is lexicographic on the components, which `dtLeB` / `dtLtB`
mirror.  `microsecond` is dropped: every datetime the code compares is
built with `microsecond=0` (or only its date part matters).
-/

structure DT where
  year : Int
  month : Nat
  day : Nat
  sec : Nat
deriving DecidableEq, Repr

/-- Lexicographic `<=` on datetimes, as Python compares `datetime` values. -/
def dtLeB (a b : DT) : Bool :=
  decide (a.year < b.year) ||
  (a.year == b.year && (decide (a.month < b.month) ||
    (a.month == b.month && (decide (a.day < b.day) ||
      (a.day == b.day && decide (a.sec ≤ b.sec))))))

/-- Lexicographic `<` on datetimes. -/
def dtLtB (a b : DT) : Bool :=
  decide (a.year < b.year) ||
  (a.year == b.year && (decide (a.month < b.month) ||
    (a.month == b.month && (decide (a.day < b.day) ||
      (a.day == b.day && decide (a.sec < b.sec))))))

theorem dtLeB_iff_not_lt (a b : DT) : dtLeB a b = true ↔ ¬ dtLtB b a = true := by
  simp only [dtLeB, dtLtB, Bool.or_eq_true, Bool.and_eq_true, decide_eq_true_eq,
    beq_iff_eq]
  omega

theorem dtLtB_iff_not_le (a b : DT) : dtLtB a b = true ↔ ¬ dtLeB b a = true := by
  simp only [dtLeB, dtLtB, Bool.or_eq_true, Bool.and_eq_true, decide_eq_true_eq,
    beq_iff_eq]
  omega

theorem dtLeB_trans {a b c : DT} (h1 : dtLeB a b = true) (h2 : dtLeB b c = true) :
    dtLeB a c = true := by
  simp only [dtLeB, Bool.or_eq_true, Bool.and_eq_true, decide_eq_true_eq, beq_iff_eq] at *
  omega

theorem dtLeB_of_lt {a b : DT} (h : dtLtB a b = true) : dtLeB a b = true := by
  simp only [dtLeB, dtLtB, Bool.or_eq_true, Bool.and_eq_true, decide_eq_true_eq,
    beq_iff_eq] at *
  omega

/-! ## Ledger rows

One row of the `deals` worksheet (`google_sheet.py` header:
`timestamp, user_id, user_name, market, channel_name, deals,
package_size_gb`).  An empty `user_id` cell (legacy rows) is modelled
as `none`, matching the Python truthiness test `if row_user_id:`.
Package sizes (Python floats) are modelled as exact rationals.
-/

structure DealRow where
  timestamp : DT
  user_id : Option String
  user_name : String
  market : String
  channel_name : String
  deals : Int
  package_size_gb : Rat
deriving DecidableEq, Repr

/-- One row of the `deletions` audit worksheet: the deletion time plus a
full snapshot of the removed deal row (`_get_deletions_sheet` schema). -/
structure DeletionRow where
  deletion_timestamp : DT
  row : DealRow
deriving DecidableEq, Repr

/-- The spreadsheet: the active `deals` worksheet plus the archived
`deals-YYYY-MM` worksheets, keyed by `(year, month)` exactly as
`_get_archived_sheet` reconstructs the sheet name from year and month. -/
structure Store where
  main : List DealRow
  archives : List ((Int × Nat) × List DealRow)
deriving DecidableEq, Repr

/-- Partition lookup: `_get_archived_sheet(year, month)`, `none` when the
`deals-YYYY-MM` worksheet does not exist. -/
def lookupArchive (st : Store) (ym : Int × Nat) : Option (List DealRow) :=
  (st.archives.find? (fun pr => pr.1 == ym)).map (fun pr => pr.2)

/-! ## Deal parser (`app.py`: `DEAL_PATTERN`, `parse_deal_from_message`)

`DEAL_PATTERN` is
`\b(200|500)\s*(mb|mbps|m)\b|\b([0-9]+\.?[0-9]*)\s*(g|gb|gig|gps|gbps)s?\b`
with `re.IGNORECASE`, used with `re.search` (leftmost match; at each
position the MB alternative is tried before the GB alternative, and
alternatives inside a group are tried left to right).  The embedding
walks the text position by position carrying the previous character for
the `\b` assertions.  Backtracking into the numeric part
`[0-9]+\.?[0-9]*` or into `\s*` can never turn a failed unit match into
a successful one (the released characters are digits, a dot or spaces,
while the unit must start with a letter), so the number and the spaces
are consumed greedily.
-/

/-- ASCII word characters, for the `\b` assertion. -/
def isWordChar (c : Char) : Bool := c.isAlphanum || c == '_'

/-- ASCII whitespace of the regex `\s` class. -/
def isSpaceChar (c : Char) : Bool :=
  c == ' ' || c == '\t' || c == '\n' || c == '\r' || c == '\x0b' || c == '\x0c'

/-- A word boundary holds before a word character iff the previous
character (if any) is not a word character. -/
def boundaryBefore (prev : Option Char) : Bool :=
  match prev with
  | none => true
  | some c => !(isWordChar c)

/-- A word boundary holds after a word character iff the next character
(if any) is not a word character. -/
def boundaryAfterWord (s : List Char) : Bool :=
  match s with
  | [] => true
  | c :: _ => !(isWordChar c)

/-- Case-insensitive match of a (lowercase) literal pattern; returns the
rest of the text on success. -/
def matchLit : List Char → List Char → Option (List Char)
  | [], s => some s
  | _ :: _, [] => none
  | p :: ps, c :: cs => if c.toLower == p then matchLit ps cs else none

/-- The token found by `DEAL_PATTERN`: an MB literal (group 1) or a GB
quantity (group 3, parsed as a decimal). -/
inductive Tok where
  | mb (n : Nat)
  | gb (q : Rat)
deriving DecidableEq, Repr

/-- Unit alternation `(u1|u2|...)` optionally followed by `s?`, then `\b`,
with Python's left-to-right alternative order and `s?` greediness.  Only
success matters here: whichever spelling matches, the surrounding
captured groups are the same. -/
def unitMatches (alts : List (List Char)) (plural : Bool) (s : List Char) : Bool :=
  match alts with
  | [] => false
  | a :: rest =>
    (match matchLit a s with
     | some r =>
        (plural && (match matchLit ['s'] r with
                    | some r2 => boundaryAfterWord r2
                    | none => false))
        || boundaryAfterWord r
     | none => false)
    || unitMatches rest plural s

/-- The MB alternative `\b(200|500)\s*(mb|mbps|m)\b` at one position. -/
def tryMB (prev : Option Char) (s : List Char) : Option Tok :=
  if boundaryBefore prev then
    match matchLit ['2', '0', '0'] s with
    | some rest =>
      if unitMatches [['m', 'b'], ['m', 'b', 'p', 's'], ['m']] false
          (rest.dropWhile isSpaceChar)
      then some (Tok.mb 200) else none
    | none =>
      match matchLit ['5', '0', '0'] s with
      | some rest =>
        if unitMatches [['m', 'b'], ['m', 'b', 'p', 's'], ['m']] false
            (rest.dropWhile isSpaceChar)
        then some (Tok.mb 500) else none
      | none => none
  else none

/-- Value of a digit string, as Python `int` on digits. -/
def natOfDigits (ds : List Char) : Nat :=
  ds.foldl (fun n c => 10 * n + (c.toNat - 48)) 0

/-- Value of the decimal literal captured by `([0-9]+\.?[0-9]*)`, as
Python `float` of that string, modelled exactly as the rational
`intpart + fracpart / 10 ^ fraclen`. -/
def ratOfParts (ip fp : List Char) : Rat :=
  Rat.divInt (natOfDigits ip * 10 ^ fp.length + natOfDigits fp) (10 ^ fp.length)

/-- The GB alternative `\b([0-9]+\.?[0-9]*)\s*(g|gb|gig|gps|gbps)s?\b`
at one position. -/
def tryGB (prev : Option Char) (s : List Char) : Option Tok :=
  if boundaryBefore prev then
    let ip := s.takeWhile Char.isDigit
    if ip.isEmpty then none
    else
      let s1 := s.dropWhile Char.isDigit
      let fpAndRest :=
        match s1 with
        | '.' :: r => (r.takeWhile Char.isDigit, r.dropWhile Char.isDigit)
        | _ => ([], s1)
      let s3 := fpAndRest.2.dropWhile isSpaceChar
      if unitMatches [['g'], ['g', 'b'], ['g', 'i', 'g'], ['g', 'p', 's'],
          ['g', 'b', 'p', 's']] true s3
      then some (Tok.gb (ratOfParts ip fpAndRest.1))
      else none
  else none

/-- `re.search` with `DEAL_PATTERN`: scan positions left to right, at
each position try the MB alternative then the GB alternative. -/
def dealSearch : Option Char → List Char → Option Tok
  | _, [] => none
  | prev, c :: rest =>
    match tryMB prev (c :: rest) with
    | some t => some t
    | none =>
      match tryGB prev (c :: rest) with
      | some t => some t
      | none => dealSearch (some c) rest

/-- `parse_deal_from_message(text)`: `(deal_count, package_size_gb)`,
`(0, 0)` when the text is not a deal.  MB sizes are divided by 1000;
a GB match is accepted only when the value lies in `[0.1, 10]`. -/
def parse_deal_from_message (text : List Char) : Nat × Rat :=
  match dealSearch none text with
  | none => (0, 0)
  | some (Tok.mb n) => (1, Rat.divInt n 1000)
  | some (Tok.gb q) => if Rat.divInt 1 10 ≤ q ∧ q ≤ 10 then (1, q) else (0, 0)

/-- `is_deal_message(text)`. -/
def is_deal_message (text : List Char) : Bool :=
  decide (0 < (parse_deal_from_message text).1)

example : parse_deal_from_message "2G sold!".toList = (1, 2) := by decide
example : parse_deal_from_message "15g".toList = (0, 0) := by decide
example : parse_deal_from_message "0.5gbps".toList = (1, Rat.divInt 1 2) := by decide
example : parse_deal_from_message "200mb".toList = (1, Rat.divInt 1 5) := by decide
example : parse_deal_from_message "500mbps!".toList = (1, Rat.divInt 1 2) := by decide
example : parse_deal_from_message "5gig easy".toList = (1, 5) := by decide
example : parse_deal_from_message "no deal here".toList = (0, 0) := by decide
example : parse_deal_from_message "call 2025551234".toList = (0, 0) := by decide
example : parse_deal_from_message "2000mb".toList = (0, 0) := by decide
example : parse_deal_from_message "two gigs 3g".toList = (1, 3) := by decide

/-! ## Text helpers for command parsing (`app.py`)

Python `str.lower`, `str.strip`, `str.startswith`, substring tests
(`"x" in s`) and `str.replace(old, "")` on lists of characters.
-/

/-- Python `str.lower()` (ASCII). -/
def lowerChars (s : List Char) : List Char := s.map Char.toLower

/-- Python `str.strip()`: drop whitespace from both ends. -/
def stripChars (s : List Char) : List Char :=
  ((s.dropWhile isSpaceChar).reverse.dropWhile isSpaceChar).reverse

/-- Python `pat in s` (substring containment). -/
def hasInfix (pat : List Char) : List Char → Bool
  | [] => pat.isEmpty
  | c :: rest => pat.isPrefixOf (c :: rest) || hasInfix pat rest

/-- Worker for `removeAll`: `skip` counts characters of an already
matched occurrence still to be dropped. -/
def removeAllGo (pat : List Char) : Nat → List Char → List Char
  | _, [] => []
  | Nat.succ k, _ :: rest => removeAllGo pat k rest
  | 0, c :: rest =>
    if pat ≠ [] ∧ pat.isPrefixOf (c :: rest) then
      removeAllGo pat (pat.length - 1) rest
    else
      c :: removeAllGo pat 0 rest

/-- Python `s.replace(pat, "")`: remove every (non-overlapping,
left-to-right) occurrence of `pat`. -/
def removeAll (pat l : List Char) : List Char := removeAllGo pat 0 l

/-! ## Command parsers (`app.py`: `parse_leaderboard_command`,
`parse_remove_command`) and channel eligibility (`slack_events`). -/

inductive CmdType where
  | channel
  | master
deriving DecidableEq, Repr

inductive Period where
  | today
  | yesterday
  | week
  | lastWeek
  | month
  | lastMonth
deriving DecidableEq, Repr

/-- The month-name list used by `parse_leaderboard_command` to decide
whether a remainder "looks like a date". -/
def lbMonthNames : List (List Char) :=
  ["january".toList, "february".toList, "march".toList, "april".toList,
   "may".toList, "june".toList, "july".toList, "august".toList,
   "september".toList, "october".toList, "november".toList, "december".toList,
   "jan".toList, "feb".toList, "mar".toList, "apr".toList, "jun".toList,
   "jul".toList, "aug".toList, "sep".toList, "oct".toList, "nov".toList,
   "dec".toList]

/-- `"/" in remainder or any(month in remainder for month in [...])`. -/
def looksLikeDate (remainder : List Char) : Bool :=
  remainder.contains '/' || lbMonthNames.any (fun m => hasInfix m remainder)

/-- Shared tail of `parse_leaderboard_command` for a given command type:
date range, single date, named periods, `today` / empty default, or the
unknown-period result `(None, None, None)`. -/
def lbRemainder (ct : CmdType) (remainder : List Char) :
    Option CmdType × Option Period × Option (List Char) :=
  if hasInfix " to ".toList remainder then (some ct, none, some remainder)
  else if looksLikeDate remainder then (some ct, none, some remainder)
  else if remainder == "yesterday".toList then (some ct, some .yesterday, none)
  else if remainder == "week".toList then (some ct, some .week, none)
  else if remainder == "last week".toList then (some ct, some .lastWeek, none)
  else if remainder == "month".toList then (some ct, some .month, none)
  else if remainder == "last month".toList then (some ct, some .lastMonth, none)
  else if remainder == "today".toList || remainder == [] then (some ct, some .today, none)
  else (none, none, none)

/-- `parse_leaderboard_command(text)`, returning
`(command_type, period, date_range)` with `None` as `none`. -/
def parse_leaderboard_command (text : List Char) :
    Option CmdType × Option Period × Option (List Char) :=
  let lower := stripChars (lowerChars text)
  if "master leaderboard".toList.isPrefixOf lower then
    lbRemainder .master (stripChars (removeAll "master leaderboard".toList lower))
  else if "leaderboard".toList.isPrefixOf lower then
    lbRemainder .channel (stripChars (removeAll "leaderboard".toList lower))
  else (none, none, none)

/-- `parse_remove_command(text)`: `(is_remove_command, deal_size_gb)`.
A trailing remainder that is not a valid deal type still yields
`(True, None)` (the code comment: "we'll let the removal function
error"). -/
def parse_remove_command (text : List Char) : Bool × Option Rat :=
  let lower := stripChars (lowerChars text)
  if !("!remove".toList.isPrefixOf lower) then (false, none)
  else if lower == "!remove last deal".toList || lower == "!remove".toList then
    (true, none)
  else
    let remainder := stripChars (removeAll "!remove".toList lower)
    let pr := parse_deal_from_message remainder
    if 0 < pr.1 then (true, some pr.2)
    else if remainder.isEmpty then (false, none)
    else (true, none)

/-- `extract_market(channel_name)` (`google_sheet.py`): second
hyphen-separated segment of a channel whose first segment is `blitz`,
else `"unknown"`. -/
def extract_market (channel_name : List Char) : List Char :=
  if channel_name.isEmpty then "unknown".toList
  else
    let parts := (lowerChars channel_name).splitOn '-'
    if h : parts ≠ [] then
      if parts.head h == "blitz".toList then
        match parts with
        | _ :: m :: _ => m
        | _ => "unknown".toList
      else "unknown".toList
    else "unknown".toList

/-- The deal-channel predicate of `slack_events`: lowercased name starts
with `blitz-` and has no further hyphen after that prefix. -/
def is_deal_channel (channel_name : List Char) : Bool :=
  let cl := lowerChars channel_name
  "blitz-".toList.isPrefixOf cl && !((cl.drop 6).contains '-')

/-! ## Event-handler model (`app.py`: `slack_events`, after the bot-loop
and deduplication checks)

The handler body is modelled as the ordered list of observable effects
of one inbound message: storage-branch entries, outbound messages
(classified by tag) and the cache clear.  The calls
`append_deal(user_name=..., channel_name=..., deals=...,
package_size_gb=..., timestamp=...)` and
`remove_last_deal(user_name=..., channel_name=..., deal_type_gb=...)`
omit the required positional parameter `user_id` of the
`google_sheet.py` signatures, so in Python each of these calls raises
`TypeError` before the callee's body runs; the exception aborts the
rest of the handler.  This is rendered as a `typeError` effect that
ends the effect list.
-/

inductive MsgTag where
  | masterOnlyHint
  | channelLeaderboard (period : Option Period) (dateRange : Option (List Char))
  | masterLeaderboard (period : Option Period) (dateRange : Option (List Char))
  | lbUsageError
deriving DecidableEq, Repr

inductive Effect where
  | dealLogAttempt (user_id : String) (deals : Nat) (size : Rat)
  | removeAttempt (user_id : String) (size : Option Rat)
  | typeError
  | sent (tag : MsgTag)
  | cacheCleared
deriving DecidableEq, Repr

/-- The leaderboard section of `slack_events` (no ledger mutation; only
outbound messages). -/
def lbSection (text channelName : List Char) : List Effect :=
  let t := parse_leaderboard_command text
  if t.1 == some CmdType.channel &&
      lowerChars channelName == "__leaderboard".toList then
    [.sent .masterOnlyHint]
  else if t.1 == some CmdType.channel then
    [.sent (.channelLeaderboard t.2.1 t.2.2)]
  else if t.1 == some CmdType.master then
    [.sent (.masterLeaderboard t.2.1 t.2.2)]
  else if t.1 == none &&
      ("leaderboard".toList.isPrefixOf (stripChars (lowerChars text)) ||
       "master leaderboard".toList.isPrefixOf (stripChars (lowerChars text))) then
    [.sent .lbUsageError]
  else []

/-- The `slack_events` message handling after the bot-loop and
deduplication checks: deal detection, leaderboard commands, the remove
command, and the cache-clear command, in source order. -/
def handleMessage (text channelName : List Char) (userId : Option String) :
    List Effect :=
  let pr := parse_deal_from_message text
  let dealCh := is_deal_channel channelName
  if decide (0 < pr.1) && dealCh && userId.isSome then
    [.dealLogAttempt (userId.getD "") pr.1 pr.2, .typeError]
  else
    let rm := parse_remove_command text
    lbSection text channelName ++
      (if rm.1 && dealCh && userId.isSome then
        [.removeAttempt (userId.getD "") rm.2, .typeError]
      else if stripChars (lowerChars text) == "!refresh cache".toList then
        [.cacheCleared]
      else [])

example : handleMessage "1g".toList "blitz-socal".toList (some "U123") =
    [.dealLogAttempt "U123" 1 1, .typeError] := by decide
example : handleMessage "1g".toList "blitz-socal-deals".toList (some "U123") = [] := by
  decide
example : handleMessage "leaderboard blah".toList "blitz-socal".toList (some "U123") =
    [.sent .lbUsageError] := by decide
example : handleMessage "!remove xyz".toList "blitz-socal".toList (some "U123") =
    [.removeAttempt "U123" none, .typeError] := by decide
example : handleMessage "leaderboard week".toList "blitz-socal".toList (some "U1") =
    [.sent (.channelLeaderboard (some .week) none)] := by decide
example : extract_market "blitz-socal-deals".toList = "socal".toList := by decide
example : extract_market "random-channel".toList = "unknown".toList := by decide

/-! ## Date parsing (`google_sheet.py`: `parse_date_input`,
`parse_date_range`)

A date token is the parsed shape of `MM/DD`, `MM/DD/YYYY`,
`"<month-name> <day>"` or `"<month-name> <day> <year>"`: a month, a
day, and an optional explicit year.  Both surface forms resolve
identically (the same smart-year logic is duplicated in the two
branches of `parse_date_input`), so one embedding covers both.
Constructing a `datetime` validates the field ranges and raises
`ValueError` otherwise; `mkDate` mirrors this with `Except`.
-/

/-- Gregorian leap year, as `datetime` uses. -/
def isLeapYear (y : Int) : Bool :=
  y % 4 == 0 && (y % 100 != 0 || y % 400 == 0)

def daysInMonth (y : Int) (m : Nat) : Nat :=
  if m == 2 then (if isLeapYear y then 29 else 28)
  else if m == 4 || m == 6 || m == 9 || m == 11 then 30
  else 31

/-- `datetime(year, month, day)` at midnight: validates the ranges that
the `datetime` constructor enforces (`MINYEAR = 1`, `MAXYEAR = 9999`),
raising `ValueError` (as `Except.error`) otherwise. -/
def mkDate (y : Int) (m d : Nat) : Except String DT :=
  if 1 ≤ y ∧ y ≤ 9999 ∧ 1 ≤ m ∧ m ≤ 12 ∧ 1 ≤ d ∧ d ≤ daysInMonth y m then
    .ok ⟨y, m, d, 0⟩
  else .error "invalid date"

/-- A parsed date token: month, day, optional explicit year. -/
structure DateTok where
  month : Nat
  day : Nat
  year : Option Int
deriving DecidableEq, Repr

/-- `parse_date_input(date_str)` against the current time `now`: with an
explicit year, build that date; with no year, try the current year and
subtract one exactly when the test date is strictly in the future. -/
def parse_date_input (now : DT) (t : DateTok) : Except String DT :=
  match t.year with
  | some y => mkDate y t.month t.day
  | none =>
    match mkDate now.year t.month t.day with
    | .error e => .error e
    | .ok test =>
      if dtLtB now test then mkDate (now.year - 1) t.month t.day else .ok test

/-- `replace(hour=23, minute=59, second=59)` on a midnight datetime. -/
def endOfDay (dt : DT) : DT := { dt with sec := 86399 }

/-- `parse_date_range` on a `"<date> to <date>"` expression (the two
tokens): resolve both ends, bump the end date by one year whenever it
precedes the start date, set the end to end of day, and fail when the
start still exceeds the end. -/
def parse_date_range (now : DT) (t1 t2 : DateTok) : Except String (DT × DT) :=
  match parse_date_input now t1 with
  | .error e => .error e
  | .ok s =>
    match parse_date_input now t2 with
    | .error e => .error e
    | .ok e0 =>
      match (if dtLtB e0 s then mkDate (e0.year + 1) e0.month e0.day
             else .ok e0) with
      | .error e => .error e
      | .ok e1 =>
        let e2 := endOfDay e1
        if dtLtB e2 s then .error "Start date must be before end date"
        else .ok (s, e2)

example : parse_date_input ⟨2026, 3, 1, 0⟩ ⟨12, 31, none⟩ = .ok ⟨2025, 12, 31, 0⟩ :=
  rfl
example : parse_date_input ⟨2026, 3, 1, 0⟩ ⟨2, 14, none⟩ = .ok ⟨2026, 2, 14, 0⟩ :=
  rfl
example : parse_date_range ⟨2026, 3, 1, 0⟩ ⟨12, 20, none⟩ ⟨1, 5, none⟩ =
    .ok (⟨2025, 12, 20, 0⟩, ⟨2026, 1, 5, 86399⟩) := rfl

/-! ## Calendar arithmetic for gap detection

`filter_deals_after_gap` subtracts `datetime` values and reads
`timedelta.days`, which is the floor of the difference in whole days.
Dates are converted to a day number with the standard civil-calendar
algorithm, and a timestamp to seconds since the epoch.
-/

/-- Days since 1970-01-01 of a civil date (Gregorian, proleptic). -/
def daysFromCivil (dt : DT) : Int :=
  let y : Int := if dt.month ≤ 2 then dt.year - 1 else dt.year
  let era : Int := y / 400
  let yoe : Int := y - era * 400
  let mp : Int := ((dt.month : Int) + 9) % 12
  let doy : Int := (153 * mp + 2) / 5 + (dt.day : Int) - 1
  let doe : Int := yoe * 365 + yoe / 4 - yoe / 100 + doy
  era * 146097 + doe - 719468

/-- Seconds since the epoch of a timestamp. -/
def tsSec (dt : DT) : Int := daysFromCivil dt * 86400 + (dt.sec : Int)

example : daysFromCivil ⟨1970, 1, 1, 0⟩ = 0 := by decide
example : daysFromCivil ⟨1970, 1, 10, 0⟩ = 9 := by decide
example : daysFromCivil ⟨2025, 3, 1, 0⟩ - daysFromCivil ⟨2025, 2, 28, 0⟩ = 1 := by decide
example : daysFromCivil ⟨2024, 3, 1, 0⟩ - daysFromCivil ⟨2024, 2, 28, 0⟩ = 2 := by decide

/-- `(next_time - current_time).days`: Python `timedelta.days` is the
floor of the difference in days. -/
def dayGap (a b : DealRow) : Int :=
  (tsSec b.timestamp - tsSec a.timestamp) / 86400

/-! ## Gap-segmentation filter (`google_sheet.py`:
`filter_deals_after_gap`)

Python's `sorted` is a stable sort; a stable sort by a key is uniquely
determined, so it is embedded as a stable insertion sort on the
timestamp order.  The scan for the most recent qualifying gap mirrors
the loop that records `last_gap_index` and the final slice
`sorted_deals[last_gap_index + 1:]`.
-/

/-- Stable insert: an element is placed after every element whose
timestamp is less than or equal to its own (later-arriving equal keys
stay behind earlier ones). -/
def insertByTs (r : DealRow) : List DealRow → List DealRow
  | [] => [r]
  | x :: xs =>
    if dtLeB x.timestamp r.timestamp then x :: insertByTs r xs else r :: x :: xs

/-- Stable sort by timestamp (`sorted(deals, key=parse_timestamp)`). -/
def sortByTs (l : List DealRow) : List DealRow :=
  l.foldl (fun acc r => insertByTs r acc) []

/-- Index `i` of the last consecutive pair `(l[i], l[i+1])` whose day
gap is at least `g` (`last_gap_index`, with `none` for `-1`). -/
def lastGapPos (g : Int) : List DealRow → Option Nat
  | a :: b :: rest =>
    (match lastGapPos g (b :: rest) with
     | some j => some (j + 1)
     | none => if g ≤ dayGap a b then some 0 else none)
  | _ => none

/-- `filter_deals_after_gap(deals, gap_days)`. -/
def filter_deals_after_gap (deals : List DealRow) (gap_days : Int) : List DealRow :=
  if deals.length < 2 then deals
  else
    match lastGapPos gap_days (sortByTs deals) with
    | some i => (sortByTs deals).drop (i + 1)
    | none => sortByTs deals

/-! ## Deal removal (`google_sheet.py`: `remove_last_deal`)

The sheet rows are scanned in order; a row matches when the user key
agrees (row `user_id` when non-empty, else row `user_name`), the
channel agrees, the timestamp is not before today's midnight, and (when
a size filter is given) the package size is within 0.01 GB.  The last
matching row (the greatest row index) is mirrored to the deletions
sheet and deleted.
-/

/-- The row filter of `remove_last_deal`. -/
def rlMatches (user_id user_name channel_name : String) (deal_type_gb : Option Rat)
    (todayStart : DT) (r : DealRow) : Bool :=
  (match r.user_id with
   | some rid => rid == user_id
   | none => r.user_name == user_name) &&
  r.channel_name == channel_name &&
  !(dtLtB r.timestamp todayStart) &&
  (match deal_type_gb with
   | none => true
   | some g => decide (|r.package_size_gb - g| ≤ Rat.divInt 1 100))

/-- Delete the last row satisfying `p` (the row `delete_rows` removes:
the sheet index of the last element of the filtered matches). -/
def removeLastMatching (p : DealRow → Bool) (l : List DealRow) : List DealRow :=
  (List.eraseP p l.reverse).reverse

/-- Result of `remove_last_deal`: `(success, deals_removed, gb_removed)`
plus the updated `deals` and `deletions` sheets. -/
structure RemoveResult where
  success : Bool
  dealsRemoved : Int
  gbRemoved : Rat
  main : List DealRow
  deletions : List DeletionRow
deriving DecidableEq, Repr

/-- `remove_last_deal(user_id, user_name, channel_name, deal_type_gb)`
with `now` the current PST time (used both for today's midnight and the
deletion timestamp). -/
def remove_last_deal (main : List DealRow) (dels : List DeletionRow)
    (user_id user_name channel_name : String) (deal_type_gb : Option Rat)
    (now : DT) : RemoveResult :=
  match (main.filter (rlMatches user_id user_name channel_name deal_type_gb
      { now with sec := 0 })).getLast? with
  | none => ⟨false, 0, 0, main, dels⟩
  | some r =>
    ⟨true, r.deals, r.package_size_gb,
      removeLastMatching (rlMatches user_id user_name channel_name deal_type_gb
        { now with sec := 0 }) main,
      dels ++ [⟨now, r⟩]⟩

/-! ## Range queries across partitions (`google_sheet.py`:
`_load_deals_from_date_range`) and monthly archiving
(`archive_and_reset_monthly`)

The Python month loop starts at the first of `start_date`'s month and
appends `(year, month)` while `current <= end_date`, stepping one
month; since `current` is always a valid first-of-month midnight, the
months visited are exactly the month indexes from `start_date`'s month
through `end_date`'s month.  The embedding enumerates that index range.
-/

/-- Linear month index of year and month. -/
def monthIndex (y : Int) (m : Nat) : Int := 12 * y + ((m : Int) - 1)

/-- Year and month of a linear month index. -/
def ymOfIndex (idx : Int) : Int × Nat :=
  (idx / 12, (idx % 12).toNat + 1)

/-- The `(year, month)` pairs the Python month loop visits. -/
def monthsSpanned (s e : DT) : List (Int × Nat) :=
  if monthIndex s.year s.month ≤ monthIndex e.year e.month then
    (List.range (monthIndex e.year e.month - monthIndex s.year s.month + 1).toNat).map
      (fun (i : Nat) => ymOfIndex (monthIndex s.year s.month + (i : Int)))
  else []

/-- `_load_deals_from_date_range(start_date, end_date)` against store
`st` at current time `now`: read only the main sheet when the range
starts in the current month, otherwise read, for each month spanned,
the main sheet (current month) or the archive partition (skipped when
absent); finally filter rows to the exact timestamp range. -/
def load_deals_from_date_range (st : Store) (now : DT) (s e : DT) : List DealRow :=
  (if dtLeB ⟨now.year, now.month, 1, 0⟩ s then st.main
   else
     (monthsSpanned s e).foldl
       (fun acc ym =>
         if ym == (now.year, now.month) then acc ++ st.main
         else
           match lookupArchive st ym with
           | some rows => acc ++ rows
           | none => acc)
       []).filter (fun r => dtLeB s r.timestamp && dtLeB r.timestamp e)

/-- `archive_and_reset_monthly()` at current time `now`: label the
archive with the previous calendar month (December of the previous year
in January), copy the active sheet's rows to a partition under that
label, and clear the active sheet's data rows (header retained).
Returns the archive label and the updated store.  (When a partition
with that label already exists, `duplicate_sheet` would fail in Python;
the model prepends, so the fresh copy shadows any stale one.) -/
def archive_and_reset_monthly (st : Store) (now : DT) : (Int × Nat) × Store :=
  let ym : Int × Nat :=
    if now.month == 1 then (now.year - 1, 12) else (now.year, now.month - 1)
  (ym, ⟨[], (ym, st.main) :: st.archives⟩)

/-! ## Claim theorems -/

/-- Helper: every effect of the leaderboard section is an outbound
message. -/
theorem lbSection_only_sends {text ch : List Char} {e : Effect}
    (he : e ∈ lbSection text ch) : ∃ tag, e = Effect.sent tag := by
  simp only [lbSection] at he
  split at he
  · exact ⟨_, by simpa using he⟩
  · split at he
    · exact ⟨_, by simpa using he⟩
    · split at he
      · exact ⟨_, by simpa using he⟩
      · split at he
        · exact ⟨_, by simpa using he⟩
        · simp at he

/-- C1: the deal-detection branch of `slack_events` for a qualifying
message (deal text, deal-eligible channel, user present) does not append
a ledger row: the call to `append_deal` omits the required `user_id`
parameter and raises `TypeError`, aborting the handler.  Evaluated at
the concrete failing input `"1g"` in channel `blitz-socal`. -/
theorem C1_append_deal_call_raises_type_error :
    handleMessage "1g".toList "blitz-socal".toList (some "U123") =
      [Effect.dealLogAttempt "U123" 1 1, Effect.typeError] := by decide

/-- C10: any entry into the append branch or the removal branch of the
event handler happens only in a channel whose lowercased name starts
with `blitz-` and has no further hyphen; in particular the suffixed
channel `blitz-socal-deals` is never eligible. -/
theorem C10_ledger_ops_only_in_deal_channels
    (text channel : List Char) (uid : Option String) :
    (((∃ u c s, Effect.dealLogAttempt u c s ∈ handleMessage text channel uid) ∨
      (∃ u sz, Effect.removeAttempt u sz ∈ handleMessage text channel uid)) →
      is_deal_channel channel = true) ∧
    is_deal_channel "blitz-socal-deals".toList = false := by
  constructor
  · intro h
    unfold handleMessage at h
    by_cases hc : is_deal_channel channel = true
    · exact hc
    · exfalso
      rw [Bool.not_eq_true] at hc
      simp only [hc, Bool.and_false, Bool.false_and, Bool.and_self, if_neg Bool.false_ne_true,
        List.append_nil] at h
      rcases h with ⟨u, c, s, hm⟩ | ⟨u, sz, hm⟩
      all_goals rcases List.mem_append.1 hm with hin | hin
      · rcases lbSection_only_sends hin with ⟨tag, ht⟩
        cases ht
      · split at hin
        · simp at hin
        · simp at hin
      · rcases lbSection_only_sends hin with ⟨tag, ht⟩
        cases ht
      · split at hin
        · simp at hin
        · simp at hin
  · decide

/-- Witness for C10: the append branch does fire for `"1g"` in
`blitz-socal`, and that channel satisfies the predicate. -/
theorem C10_witness : is_deal_channel "blitz-socal".toList = true :=
  (C10_ledger_ops_only_in_deal_channels "1g".toList "blitz-socal".toList
    (some "U123")).1 (Or.inl ⟨"U123", 1, 1, by decide⟩)

/-- C2: conditioned on the first `DEAL_PATTERN` match of the text,
`parse_deal_from_message` returns `(1, q)` for a GB quantity `q`
exactly when `0.1 <= q <= 10` and `(0, 0)` otherwise, and converts the
MB literals to GB; together with the spec's concrete examples. -/
theorem C2_parse_deal_range_and_mb (text : List Char) (q : Rat) :
    ((dealSearch none text = some (Tok.gb q) →
      (parse_deal_from_message text = (1, q) ↔ (Rat.divInt 1 10 ≤ q ∧ q ≤ 10)) ∧
      (¬ (Rat.divInt 1 10 ≤ q ∧ q ≤ 10) → parse_deal_from_message text = (0, 0))) ∧
     (∀ n : Nat, dealSearch none text = some (Tok.mb n) →
      parse_deal_from_message text = (1, Rat.divInt n 1000))) ∧
    parse_deal_from_message "2G sold!".toList = (1, 2) ∧
    parse_deal_from_message "15g".toList = (0, 0) ∧
    parse_deal_from_message "0.5gbps".toList = (1, Rat.divInt 1 2) ∧
    parse_deal_from_message "200mb".toList = (1, Rat.divInt 1 5) ∧
    parse_deal_from_message "500mb".toList = (1, Rat.divInt 1 2) := by
  refine ⟨⟨fun h => ?_, fun n h => ?_⟩, by decide, by decide, by decide, by decide, by decide⟩
  · by_cases hc : Rat.divInt 1 10 ≤ q ∧ q ≤ 10
    · constructor
      · simp [parse_deal_from_message, h, hc]
      · intro hnc; exact absurd hc hnc
    · constructor
      · simp only [parse_deal_from_message, h, if_neg hc]
        constructor
        · intro he; cases he
        · intro hq; exact absurd hq hc
      · intro _; simp [parse_deal_from_message, h, hc]
  · simp [parse_deal_from_message, h]

/-- Witness for C2 at `"2G sold!"` with `q = 2`. -/
theorem C2_witness : parse_deal_from_message "2G sold!".toList = (1, 2) :=
  (((C2_parse_deal_range_and_mb "2G sold!".toList 2).1.1 (by decide)).1).mpr (by decide)

/-- Reduce an `if` on a boolean condition known to be true. -/
theorem ite_cond_true {α : Sort _} {b : Bool} (h : b = true) (x y : α) :
    (if b = true then x else y) = x := by
  rw [h]
  simp

/-- Reduce an `if` on a boolean condition known to be false. -/
theorem ite_cond_false {α : Sort _} {b : Bool} (h : b = false) (x y : α) :
    (if b = true then x else y) = y := by
  rw [h]
  simp

/-- Propositional form of `dtLtB`. -/
theorem dtLtB_eq_true_iff (a b : DT) :
    dtLtB a b = true ↔
      (a.year < b.year ∨ (a.year = b.year ∧ (a.month < b.month ∨
        (a.month = b.month ∧ (a.day < b.day ∨ (a.day = b.day ∧ a.sec < b.sec)))))) := by
  simp [dtLtB, Bool.or_eq_true, Bool.and_eq_true, decide_eq_true_eq, beq_iff_eq]

/-- Propositional form of `dtLeB`. -/
theorem dtLeB_eq_true_iff (a b : DT) :
    dtLeB a b = true ↔
      (a.year < b.year ∨ (a.year = b.year ∧ (a.month < b.month ∨
        (a.month = b.month ∧ (a.day < b.day ∨ (a.day = b.day ∧ a.sec ≤ b.sec)))))) := by
  simp [dtLeB, Bool.or_eq_true, Bool.and_eq_true, decide_eq_true_eq, beq_iff_eq]

/-- A successful `mkDate` returns exactly the midnight datetime of its
arguments. -/
theorem mkDate_ok {y : Int} {m d : Nat} {dt : DT} (h : mkDate y m d = .ok dt) :
    dt = ⟨y, m, d, 0⟩ := by
  unfold mkDate at h
  split at h
  · cases h; rfl
  · cases h

/-- `parse_date_input` with an explicit year is `mkDate`. -/
theorem parse_date_input_some_eq (now : DT) (m d : Nat) (y : Int) :
    parse_date_input now ⟨m, d, some y⟩ = mkDate y m d := rfl

/-- `parse_date_input` with no year, when the current-year date is
valid. -/
theorem parse_date_input_none_ok (now : DT) (m d : Nat) {test : DT}
    (hmk : mkDate now.year m d = .ok test) :
    parse_date_input now ⟨m, d, none⟩ =
      if dtLtB now test = true then mkDate (now.year - 1) m d else .ok test := by
  unfold parse_date_input
  rw [hmk]

/-- `parse_date_input` with no year, when the current-year date is
invalid. -/
theorem parse_date_input_none_err (now : DT) (m d : Nat) {e : String}
    (hmk : mkDate now.year m d = .error e) :
    parse_date_input now ⟨m, d, none⟩ = .error e := by
  unfold parse_date_input
  rw [hmk]

/-- C6: a no-year date token resolves in the current year, minus one
exactly when the current-year date is strictly in the future, so it
never resolves to a future date; and `12/31` evaluated on March 1 of
year `y` resolves to December 31 of year `y - 1`. -/
theorem C6_no_year_resolves_backward (now : DT) (m d : Nat) :
    (∀ dt : DT, parse_date_input now ⟨m, d, none⟩ = .ok dt →
      dt = (if dtLtB now ⟨now.year, m, d, 0⟩ = true then (⟨now.year - 1, m, d, 0⟩ : DT)
            else ⟨now.year, m, d, 0⟩) ∧
      dtLtB now dt = false) ∧
    (∀ (y : Int) (sec : Nat), 2 ≤ y → y ≤ 9999 →
      parse_date_input ⟨y, 3, 1, sec⟩ ⟨12, 31, none⟩ = .ok ⟨y - 1, 12, 31, 0⟩) := by
  constructor
  · intro dt h
    cases hmk : mkDate now.year m d with
    | error e => rw [parse_date_input_none_err now m d hmk] at h; cases h
    | ok test =>
      rw [parse_date_input_none_ok now m d hmk] at h
      have ht := mkDate_ok hmk
      subst ht
      cases hf : dtLtB now ⟨now.year, m, d, 0⟩ with
      | true =>
        rw [ite_cond_true hf] at h
        have hdt := mkDate_ok h
        subst hdt
        refine ⟨by simp, ?_⟩
        rw [Bool.eq_false_iff, ne_eq, dtLtB_eq_true_iff]
        dsimp only
        omega
      | false =>
        rw [ite_cond_false hf] at h
        cases h
        exact ⟨by simp, hf⟩
  · intro y sec h2 h9
    have hmk1 : mkDate y 12 31 = .ok ⟨y, 12, 31, 0⟩ := by
      unfold mkDate
      rw [if_pos]
      refine ⟨by omega, by omega, by omega, by omega, by omega, by simp [daysInMonth]⟩
    have hmk2 : mkDate (y - 1) 12 31 = .ok ⟨y - 1, 12, 31, 0⟩ := by
      unfold mkDate
      rw [if_pos]
      refine ⟨by omega, by omega, by omega, by omega, by omega, by simp [daysInMonth]⟩
    have hlt : dtLtB ⟨y, 3, 1, sec⟩ ⟨y, 12, 31, 0⟩ = true := by
      rw [dtLtB_eq_true_iff]
      dsimp only
      omega
    rw [parse_date_input_none_ok ⟨y, 3, 1, sec⟩ 12 31 hmk1, ite_cond_true hlt]
    exact hmk2

/-- Witness for C6: resolving `12/31` on 2026-03-01 yields 2025-12-31,
which is not in the future. -/
theorem C6_witness :
    parse_date_input ⟨2026, 3, 1, 0⟩ ⟨12, 31, none⟩ = .ok ⟨2025, 12, 31, 0⟩ ∧
    dtLtB ⟨2026, 3, 1, 0⟩ ⟨2025, 12, 31, 0⟩ = false :=
  ⟨(C6_no_year_resolves_backward ⟨2026, 3, 1, 0⟩ 12 31).2 2026 0 (by decide) (by decide),
   ((C6_no_year_resolves_backward ⟨2026, 3, 1, 0⟩ 12 31).1 ⟨2025, 12, 31, 0⟩ rfl).2⟩

/-- The month, day and second of a successfully parsed date token. -/
theorem parse_date_input_shape {now : DT} {t : DateTok} {dt : DT}
    (h : parse_date_input now t = .ok dt) :
    dt.month = t.month ∧ dt.day = t.day ∧ dt.sec = 0 := by
  obtain ⟨tm, td, ty⟩ := t
  cases ty with
  | some y =>
    rw [parse_date_input_some_eq] at h
    rw [mkDate_ok h]
    exact ⟨rfl, rfl, rfl⟩
  | none =>
    cases hmk : mkDate now.year tm td with
    | error e => rw [parse_date_input_none_err now tm td hmk] at h; cases h
    | ok test =>
      rw [parse_date_input_none_ok now tm td hmk] at h
      cases hf : dtLtB now test with
      | true =>
        rw [ite_cond_true hf] at h
        rw [mkDate_ok h]
        exact ⟨rfl, rfl, rfl⟩
      | false =>
        rw [ite_cond_false hf] at h
        cases h
        rw [mkDate_ok hmk]
        exact ⟨rfl, rfl, rfl⟩

/-- Unfolding of `parse_date_range` once both tokens resolve. -/
theorem parse_date_range_eq (now : DT) (t1 t2 : DateTok) (s e0 : DT)
    (h1 : parse_date_input now t1 = .ok s)
    (h2 : parse_date_input now t2 = .ok e0) :
    parse_date_range now t1 t2 =
      (match (if dtLtB e0 s = true then mkDate (e0.year + 1) e0.month e0.day
              else .ok e0) with
       | .error e => .error e
       | .ok e1 =>
         if dtLtB (endOfDay e1) s = true then .error "Start date must be before end date"
         else .ok (s, endOfDay e1)) := by
  unfold parse_date_range
  rw [h1, h2]

/-- C8 (amended): `parse_date_range` on `"<date> to <date>"` bumps the
end year exactly when the resolved end precedes the resolved start —
regardless of whether years were explicit — and errors when the start
still exceeds the bumped end of day. -/
theorem C8_range_year_bump (now : DT) (t1 t2 : DateTok) (s e0 : DT)
    (h1 : parse_date_input now t1 = .ok s)
    (h2 : parse_date_input now t2 = .ok e0) :
    (dtLtB e0 s = false → parse_date_range now t1 t2 = .ok (s, endOfDay e0)) ∧
    (∀ e1, dtLtB e0 s = true → mkDate (e0.year + 1) e0.month e0.day = .ok e1 →
      parse_date_range now t1 t2 =
        if dtLtB (endOfDay e1) s = true then .error "Start date must be before end date"
        else .ok (s, endOfDay e1)) ∧
    (∀ a b, parse_date_range now t1 t2 = .ok (a, b) →
      a = s ∧ b.sec = 86399 ∧ b.month = e0.month ∧ b.day = e0.day ∧
      (b.year = e0.year + 1 ↔ dtLtB e0 s = true) ∧ dtLtB b a = false) := by
  have hsec0 : e0.sec = 0 := (parse_date_input_shape h2).2.2
  have heq := parse_date_range_eq now t1 t2 s e0 h1 h2
  refine ⟨?_, ?_, ?_⟩
  · intro hns
    rw [heq, ite_cond_false hns]
    have hse : dtLeB s e0 = true :=
      (dtLeB_iff_not_lt s e0).2 (by rw [hns]; exact Bool.false_ne_true)
    have heod : dtLeB e0 (endOfDay e0) = true := by
      have h1' : (endOfDay e0).year = e0.year := rfl
      have h2' : (endOfDay e0).month = e0.month := rfl
      have h3' : (endOfDay e0).day = e0.day := rfl
      have h4' : (endOfDay e0).sec = 86399 := rfl
      rw [dtLeB_eq_true_iff, h1', h2', h3', h4']
      omega
    have hfin : dtLtB (endOfDay e0) s = false := by
      rw [Bool.eq_false_iff, ne_eq, dtLtB_iff_not_le, not_not]
      exact dtLeB_trans hse heod
    dsimp only
    rw [ite_cond_false hfin]
  · intro e1 hb hmk
    rw [heq, ite_cond_true hb, hmk]
  · intro a b h
    rw [heq] at h
    cases hv : dtLtB e0 s with
    | true =>
      rw [ite_cond_true hv] at h
      cases hmk : mkDate (e0.year + 1) e0.month e0.day with
      | error e => rw [hmk] at h; cases h
      | ok e1 =>
        rw [hmk] at h
        have he1 := mkDate_ok hmk
        subst he1
        dsimp only at h
        cases hfin : dtLtB (endOfDay ⟨e0.year + 1, e0.month, e0.day, 0⟩) s with
        | true => rw [ite_cond_true hfin] at h; cases h
        | false =>
          rw [ite_cond_false hfin] at h
          cases h
          refine ⟨rfl, rfl, rfl, rfl, ?_, hfin⟩
          simp [endOfDay]
    | false =>
      rw [ite_cond_false hv] at h
      dsimp only at h
      cases hfin : dtLtB (endOfDay e0) s with
      | true => rw [ite_cond_true hfin] at h; cases h
      | false =>
        rw [ite_cond_false hfin] at h
        cases h
        refine ⟨rfl, rfl, rfl, rfl, ?_, hfin⟩
        constructor
        · intro hy
          exfalso
          have hyy : (endOfDay e0).year = e0.year := rfl
          rw [hyy] at hy
          omega
        · intro hy
          exact absurd hy (by decide)

/-- Counterexample for C8 as stated: with explicit years on both ends
(`12/20/2024 to 1/5/2024`) and the end before the start, the code still
adds one year to the end date and succeeds, where the claim requires no
adjustment and an error. -/
theorem C8_counterexample :
    parse_date_range ⟨2026, 6, 15, 0⟩ ⟨12, 20, some 2024⟩ ⟨1, 5, some 2024⟩ =
      .ok (⟨2024, 12, 20, 0⟩, ⟨2025, 1, 5, 86399⟩) := rfl

/-- Witness for C8 at `"12/20 to 1/5"` resolved on 2026-03-01. -/
theorem C8_witness :
    parse_date_range ⟨2026, 3, 1, 0⟩ ⟨12, 20, none⟩ ⟨1, 5, none⟩ =
      .ok (⟨2025, 12, 20, 0⟩, endOfDay ⟨2026, 1, 5, 0⟩) :=
  (C8_range_year_bump ⟨2026, 3, 1, 0⟩ ⟨12, 20, none⟩ ⟨1, 5, none⟩
    ⟨2025, 12, 20, 0⟩ ⟨2026, 1, 5, 0⟩ rfl rfl).1 (by decide)

/-- A nonempty prefix pins the head of the list. -/
theorem isPrefixOf_head {a : Char} {as l : List Char}
    (h : List.isPrefixOf (a :: as) l = true) : ∃ t, l = a :: t := by
  cases l with
  | nil => simp [List.isPrefixOf] at h
  | cons c cs =>
    simp only [List.isPrefixOf, Bool.and_eq_true, beq_iff_eq] at h
    exact ⟨cs, by rw [h.1]⟩

/-- Lists with different heads are not prefix-related. -/
theorem isPrefixOf_false_of_head_ne {a b : Char} {as bs : List Char}
    (hne : (a == b) = false) :
    List.isPrefixOf (a :: as) (b :: bs) = false := by
  simp only [List.isPrefixOf, hne, Bool.false_and]

/-- A text that starts with a leaderboard command prefix cannot start
with `!remove`. -/
theorem remove_prefix_false_of_lb {l : List Char}
    (h : ("leaderboard".toList.isPrefixOf l ||
          "master leaderboard".toList.isPrefixOf l) = true) :
    "!remove".toList.isPrefixOf l = false := by
  rw [Bool.or_eq_true] at h
  rcases h with h1 | h1
  · obtain ⟨t, ht⟩ :=
      isPrefixOf_head (show List.isPrefixOf ('l' :: "eaderboard".toList) l = true from h1)
    subst ht
    exact isPrefixOf_false_of_head_ne (by decide)
  · obtain ⟨t, ht⟩ :=
      isPrefixOf_head
        (show List.isPrefixOf ('m' :: "aster leaderboard".toList) l = true from h1)
    subst ht
    exact isPrefixOf_false_of_head_ne (by decide)

/-- C7 (amended): a leaderboard-prefixed message whose trailing text is
unrecognized gets a usage-error reply and triggers no ledger operation
(provided the deal-detection step does not fire first), but a
`!remove`-prefixed message with unrecognized trailing text is treated
as a plain `!remove` (remove-latest) command, not as a syntax error. -/
theorem C7_unrecognized_command_handling (text channel : List Char) (uid : Option String)
    (hlb : parse_leaderboard_command text = (none, none, none))
    (hpre : ("leaderboard".toList.isPrefixOf (stripChars (lowerChars text)) ||
             "master leaderboard".toList.isPrefixOf (stripChars (lowerChars text))) = true)
    (hnodeal : (decide (0 < (parse_deal_from_message text).1) && is_deal_channel channel &&
        uid.isSome) = false) :
    (Effect.sent MsgTag.lbUsageError ∈ handleMessage text channel uid ∧
     (∀ u c s, Effect.dealLogAttempt u c s ∉ handleMessage text channel uid) ∧
     (∀ u sz, Effect.removeAttempt u sz ∉ handleMessage text channel uid)) ∧
    (∀ t : List Char,
      "!remove".toList.isPrefixOf (stripChars (lowerChars t)) = true →
      stripChars (lowerChars t) ≠ "!remove last deal".toList →
      stripChars (lowerChars t) ≠ "!remove".toList →
      (parse_deal_from_message (stripChars (removeAll "!remove".toList
        (stripChars (lowerChars t))))).1 = 0 →
      stripChars (removeAll "!remove".toList (stripChars (lowerChars t))) ≠ [] →
      parse_remove_command t = (true, none)) := by
  constructor
  · have hrm : parse_remove_command text = (false, none) := by
      simp only [parse_remove_command, remove_prefix_false_of_lb hpre, Bool.not_false,
        if_true]
    have hlbsec : lbSection text channel = [Effect.sent MsgTag.lbUsageError] := by
      have e1 : ((none : Option CmdType) == some CmdType.channel) = false := rfl
      have e2 : ((none : Option CmdType) == some CmdType.master) = false := rfl
      have e3 : ((none : Option CmdType) == none) = true := rfl
      simp only [lbSection, hlb, e1, e2, e3, Bool.false_and, Bool.true_and, hpre,
        Bool.false_eq_true, if_false, eq_self_iff_true, if_true]
    have hmain : handleMessage text channel uid =
        [Effect.sent MsgTag.lbUsageError] ++
        (if stripChars (lowerChars text) == "!refresh cache".toList
         then [Effect.cacheCleared] else []) := by
      simp only [handleMessage]
      rw [ite_cond_false hnodeal, hlbsec, hrm]
      simp
    refine ⟨?_, ?_, ?_⟩
    · rw [hmain]
      simp
    · intro u c s hmem
      rw [hmain] at hmem
      rcases List.mem_append.1 hmem with hA | hB
      · simp at hA
      · split at hB <;> simp at hB
    · intro u sz hmem
      rw [hmain] at hmem
      rcases List.mem_append.1 hmem with hA | hB
      · simp at hA
      · split at hB <;> simp at hB
  · intro t hp hne1 hne2 hzero hnonempty
    have hp' : (!("!remove".toList.isPrefixOf (stripChars (lowerChars t)))) = false := by
      rw [hp]
      rfl
    have hb1 : (stripChars (lowerChars t) == "!remove last deal".toList) = false := by
      rw [Bool.eq_false_iff, ne_eq, beq_iff_eq]
      exact hne1
    have hb2 : (stripChars (lowerChars t) == "!remove".toList) = false := by
      rw [Bool.eq_false_iff, ne_eq, beq_iff_eq]
      exact hne2
    have hie : (stripChars (removeAll "!remove".toList
        (stripChars (lowerChars t)))).isEmpty = false := by
      rw [Bool.eq_false_iff, ne_eq, List.isEmpty_iff]
      exact hnonempty
    simp only [parse_remove_command, hp', hb1, hb2, hie, Bool.or_self,
      Bool.false_eq_true, if_false]
    rw [if_neg]
    omega

/-- Counterexample for C7 as stated: `"!remove xyz"` has unrecognized
trailing text after the `!remove` prefix, yet no usage error is sent;
the handler enters the removal branch instead (which then raises the
`TypeError` of the missing `user_id` argument). -/
theorem C7_counterexample :
    handleMessage "!remove xyz".toList "blitz-socal".toList (some "U1") =
      [Effect.removeAttempt "U1" none, Effect.typeError] ∧
    Effect.sent MsgTag.lbUsageError ∉
      handleMessage "!remove xyz".toList "blitz-socal".toList (some "U1") := by
  refine ⟨by decide, by decide⟩

/-- Witness for C7 at `"leaderboard blah"` and `"!remove xyz"`. -/
theorem C7_witness :
    Effect.sent MsgTag.lbUsageError ∈
      handleMessage "leaderboard blah".toList "blitz-socal".toList (some "U1") ∧
    parse_remove_command "!remove xyz".toList = (true, none) :=
  ⟨((C7_unrecognized_command_handling "leaderboard blah".toList "blitz-socal".toList
      (some "U1") (by decide) (by decide) (by decide)).1).1,
   (C7_unrecognized_command_handling "leaderboard blah".toList "blitz-socal".toList
      (some "U1") (by decide) (by decide) (by decide)).2 "!remove xyz".toList
      (by decide) (by decide) (by decide) (by decide) (by decide)⟩

/-- If the head of a filtered list is `r`, the list splits at the first
match and `eraseP` removes exactly that element. -/
theorem filter_head_eraseP {α : Type} (p : α → Bool) :
    ∀ (l : List α) (r : α), (List.filter p l).head? = some r →
      ∃ l1 l2, l = l1 ++ r :: l2 ∧ (∀ x ∈ l1, p x = false) ∧ p r = true ∧
        List.eraseP p l = l1 ++ l2
  | [], r, h => by simp at h
  | a :: t, r, h => by
    cases hpa : p a with
    | true =>
      rw [List.filter_cons, if_pos hpa] at h
      simp only [List.head?_cons, Option.some.injEq] at h
      subst h
      refine ⟨[], t, rfl, by simp, hpa, ?_⟩
      rw [List.eraseP_cons, hpa]
      rfl
    | false =>
      rw [List.filter_cons, if_neg (by rw [hpa]; exact Bool.false_ne_true)] at h
      obtain ⟨l1, l2, he, hl1, hpr, her⟩ := filter_head_eraseP p t r h
      refine ⟨a :: l1, l2, by rw [he]; rfl, ?_, hpr, ?_⟩
      · intro x hx
        rcases List.mem_cons.1 hx with hx | hx
        · rw [hx]; exact hpa
        · exact hl1 x hx
      · rw [List.eraseP_cons, hpa, her]
        rfl

/-- Filtering after `eraseP` with the same predicate drops exactly the
first filtered element. -/
theorem filter_eraseP {α : Type} (p : α → Bool) :
    ∀ l : List α, List.filter p (List.eraseP p l) = (List.filter p l).tail
  | [] => rfl
  | a :: t => by
    cases hpa : p a with
    | true =>
      rw [List.eraseP_cons, hpa, List.filter_cons, if_pos hpa]
      rfl
    | false =>
      rw [List.eraseP_cons, hpa]
      show List.filter p (a :: List.eraseP p t) = _
      rw [List.filter_cons, if_neg (by rw [hpa]; exact Bool.false_ne_true),
        List.filter_cons, if_neg (by rw [hpa]; exact Bool.false_ne_true)]
      exact filter_eraseP p t

/-- C3 (amended): `remove_last_deal` removes the positionally last (most
recently stored) row among those matching the user key, the channel,
a timestamp at or after today's midnight, and the optional size filter;
the removed row is mirrored to the deletions sheet; no match means
not-removed with the state unchanged; with exactly one matching row, a
first call succeeds and an identical second call fails. -/
theorem C3_remove_last_matching_row (main : List DealRow) (dels : List DeletionRow)
    (user_id user_name channel_name : String) (deal_type_gb : Option Rat) (now : DT) :
    (main.filter (rlMatches user_id user_name channel_name deal_type_gb
        { now with sec := 0 }) = [] →
      remove_last_deal main dels user_id user_name channel_name deal_type_gb now =
        ⟨false, 0, 0, main, dels⟩) ∧
    (∀ r, (main.filter (rlMatches user_id user_name channel_name deal_type_gb
        { now with sec := 0 })).getLast? = some r →
      ∃ pre post,
        main = pre ++ r :: post ∧
        (∀ x ∈ post, rlMatches user_id user_name channel_name deal_type_gb
          { now with sec := 0 } x = false) ∧
        rlMatches user_id user_name channel_name deal_type_gb
          { now with sec := 0 } r = true ∧
        remove_last_deal main dels user_id user_name channel_name deal_type_gb now =
          ⟨true, r.deals, r.package_size_gb, pre ++ post, dels ++ [⟨now, r⟩]⟩) ∧
    ((main.filter (rlMatches user_id user_name channel_name deal_type_gb
        { now with sec := 0 })).length = 1 →
      (remove_last_deal main dels user_id user_name channel_name deal_type_gb
        now).success = true ∧
      (remove_last_deal
        (remove_last_deal main dels user_id user_name channel_name deal_type_gb
          now).main
        (remove_last_deal main dels user_id user_name channel_name deal_type_gb
          now).deletions
        user_id user_name channel_name deal_type_gb now).success = false) := by
  refine ⟨?_, ?_, ?_⟩
  · intro hemp
    unfold remove_last_deal
    rw [hemp]
    rfl
  · intro r hgl
    have heq : remove_last_deal main dels user_id user_name channel_name deal_type_gb
        now = ⟨true, r.deals, r.package_size_gb,
          removeLastMatching (rlMatches user_id user_name channel_name deal_type_gb
            { now with sec := 0 }) main, dels ++ [⟨now, r⟩]⟩ := by
      unfold remove_last_deal
      rw [hgl]
    have h' : (List.filter (rlMatches user_id user_name channel_name deal_type_gb
        { now with sec := 0 }) main.reverse).head? = some r := by
      rw [List.filter_reverse, List.head?_reverse]
      exact hgl
    obtain ⟨l1, l2, he, hl1, hpr, her⟩ := filter_head_eraseP _ main.reverse r h'
    have hm : main = l2.reverse ++ r :: l1.reverse := by
      have h2 := congrArg List.reverse he
      rw [List.reverse_reverse] at h2
      rw [h2]
      simp
    refine ⟨l2.reverse, l1.reverse, hm, ?_, hpr, ?_⟩
    · intro x hx
      exact hl1 x (List.mem_reverse.1 hx)
    · rw [heq]
      unfold removeLastMatching
      rw [her]
      simp
  · intro hlen
    obtain ⟨r, hfr⟩ : ∃ r, main.filter (rlMatches user_id user_name channel_name
        deal_type_gb { now with sec := 0 }) = [r] := by
      cases hl : main.filter (rlMatches user_id user_name channel_name
          deal_type_gb { now with sec := 0 }) with
      | nil => rw [hl] at hlen; simp at hlen
      | cons x tl =>
        cases tl with
        | nil => exact ⟨x, rfl⟩
        | cons y t2 => rw [hl] at hlen; simp at hlen
    have hgl : (main.filter (rlMatches user_id user_name channel_name deal_type_gb
        { now with sec := 0 })).getLast? = some r := by rw [hfr]; rfl
    have heq : remove_last_deal main dels user_id user_name channel_name deal_type_gb
        now = ⟨true, r.deals, r.package_size_gb,
          removeLastMatching (rlMatches user_id user_name channel_name deal_type_gb
            { now with sec := 0 }) main, dels ++ [⟨now, r⟩]⟩ := by
      unfold remove_last_deal
      rw [hgl]
    constructor
    · rw [heq]
    · rw [heq]
      have hf2 : (removeLastMatching (rlMatches user_id user_name channel_name
          deal_type_gb { now with sec := 0 }) main).filter
          (rlMatches user_id user_name channel_name deal_type_gb
            { now with sec := 0 }) = [] := by
        unfold removeLastMatching
        rw [List.filter_reverse, filter_eraseP, List.filter_reverse, hfr]
        rfl
      unfold remove_last_deal
      rw [hf2]
      rfl

/-- Counterexample for C3 as stated.  First state: two rows of the same
user and channel today, the positionally later row `rB` carrying the
earlier timestamp; the code removes `rB`, not the greatest-timestamp row
`rA`.  Second state: a row timestamped tomorrow is matched and removed
by a remove call issued today, although its timestamp is not within
today. -/
theorem C3_counterexample :
    (remove_last_deal
        [⟨⟨2026, 5, 10, 36000⟩, some "U", "Ann", "socal", "blitz-socal", 1, 1⟩,
         ⟨⟨2026, 5, 10, 32400⟩, some "U", "Ann", "socal", "blitz-socal", 1, 1⟩]
        [] "U" "Ann" "blitz-socal" none ⟨2026, 5, 10, 72000⟩).main =
      [⟨⟨2026, 5, 10, 36000⟩, some "U", "Ann", "socal", "blitz-socal", 1, 1⟩] ∧
    dtLtB ⟨2026, 5, 10, 32400⟩ ⟨2026, 5, 10, 36000⟩ = true ∧
    (remove_last_deal
        [⟨⟨2026, 5, 10, 32400⟩, some "U", "Ann", "socal", "blitz-socal", 1, 1⟩,
         ⟨⟨2026, 5, 11, 3600⟩, some "U", "Ann", "socal", "blitz-socal", 1, 1⟩]
        [] "U" "Ann" "blitz-socal" none ⟨2026, 5, 10, 72000⟩).deletions =
      [⟨⟨2026, 5, 10, 72000⟩,
        ⟨⟨2026, 5, 11, 3600⟩, some "U", "Ann", "socal", "blitz-socal", 1, 1⟩⟩] ∧
    dtLtB ⟨2026, 5, 10, 86399⟩ ⟨2026, 5, 11, 3600⟩ = true := by
  refine ⟨by decide, by decide, by decide, by decide⟩

/-- Witness for C3: a one-row ledger where the only row matches; the
first removal succeeds and the identical second call fails. -/
theorem C3_witness :
    (remove_last_deal
        [⟨⟨2026, 5, 10, 36000⟩, some "U", "Ann", "socal", "blitz-socal", 1, 1⟩]
        [] "U" "Ann" "blitz-socal" none ⟨2026, 5, 10, 72000⟩).success = true ∧
    (remove_last_deal
        (remove_last_deal
          [⟨⟨2026, 5, 10, 36000⟩, some "U", "Ann", "socal", "blitz-socal", 1, 1⟩]
          [] "U" "Ann" "blitz-socal" none ⟨2026, 5, 10, 72000⟩).main
        (remove_last_deal
          [⟨⟨2026, 5, 10, 36000⟩, some "U", "Ann", "socal", "blitz-socal", 1, 1⟩]
          [] "U" "Ann" "blitz-socal" none ⟨2026, 5, 10, 72000⟩).deletions
        "U" "Ann" "blitz-socal" none ⟨2026, 5, 10, 72000⟩).success = false :=
  (C3_remove_last_matching_row
    [⟨⟨2026, 5, 10, 36000⟩, some "U", "Ann", "socal", "blitz-socal", 1, 1⟩]
    [] "U" "Ann" "blitz-socal" none ⟨2026, 5, 10, 72000⟩).2.2 (by decide)

/-- Stable insert produces a permutation of consing. -/
theorem insertByTs_perm (r : DealRow) (l : List DealRow) :
    (insertByTs r l).Perm (r :: l) := by
  induction l with
  | nil => exact List.Perm.refl _
  | cons x xs ih =>
    unfold insertByTs
    split
    · exact (List.Perm.cons x ih).trans (List.Perm.swap r x xs)
    · exact List.Perm.refl _

/-- The insertion-sort fold permutes its inputs. -/
theorem foldl_insert_perm :
    ∀ (l acc : List DealRow),
      (l.foldl (fun a r => insertByTs r a) acc).Perm (acc ++ l)
  | [], acc => by
    rw [List.append_nil]
    exact List.Perm.refl _
  | x :: xs, acc => by
    have h1 := foldl_insert_perm xs (insertByTs x acc)
    refine h1.trans ?_
    refine ((insertByTs_perm x acc).append_right xs).trans ?_
    exact List.perm_middle.symm

/-- `sortByTs` permutes its input. -/
theorem sortByTs_perm (l : List DealRow) : (sortByTs l).Perm l := by
  have h := foldl_insert_perm l []
  simpa [sortByTs] using h

/-- Stable insert preserves sortedness by timestamp. -/
theorem insertByTs_sorted (r : DealRow) (l : List DealRow)
    (h : l.Pairwise (fun a b => dtLeB a.timestamp b.timestamp = true)) :
    (insertByTs r l).Pairwise (fun a b => dtLeB a.timestamp b.timestamp = true) := by
  induction l with
  | nil => simp [insertByTs]
  | cons x xs ih =>
    have hx := List.pairwise_cons.1 h
    unfold insertByTs
    split
    · rename_i hle
      rw [List.pairwise_cons]
      constructor
      · intro y hy
        have hmem := (insertByTs_perm r xs).mem_iff.1 hy
        rcases List.mem_cons.1 hmem with h1 | h1
        · rw [h1]; exact hle
        · exact hx.1 y h1
      · exact ih hx.2
    · rename_i hgt
      have hrx : dtLeB r.timestamp x.timestamp = true := by
        refine (dtLeB_iff_not_lt _ _).2 ?_
        intro hlt
        exact hgt (dtLeB_of_lt hlt)
      rw [List.pairwise_cons]
      constructor
      · intro y hy
        rcases List.mem_cons.1 hy with h1 | h1
        · rw [h1]; exact hrx
        · exact dtLeB_trans hrx (hx.1 y h1)
      · exact h
  
/-- `sortByTs` sorts by timestamp. -/
theorem sortByTs_sorted (l : List DealRow) :
    (sortByTs l).Pairwise (fun a b => dtLeB a.timestamp b.timestamp = true) := by
  have gen : ∀ (l2 acc : List DealRow),
      acc.Pairwise (fun a b => dtLeB a.timestamp b.timestamp = true) →
      (l2.foldl (fun a r => insertByTs r a) acc).Pairwise
        (fun a b => dtLeB a.timestamp b.timestamp = true) := by
    intro l2
    induction l2 with
    | nil => intro acc h; exact h
    | cons x xs ih =>
      intro acc h
      exact ih (insertByTs x acc) (insertByTs_sorted x acc h)
  exact gen l [] List.Pairwise.nil

/-- `lastGapPos` on `a :: b :: rest` when a later gap exists. -/
theorem lastGapPos_cons2_some {g : Int} {b : DealRow} {rest : List DealRow} {j : Nat}
    (a : DealRow) (h : lastGapPos g (b :: rest) = some j) :
    lastGapPos g (a :: b :: rest) = some (j + 1) := by
  unfold lastGapPos
  rw [h]

/-- `lastGapPos` on `a :: b :: rest` when no later gap exists. -/
theorem lastGapPos_cons2_none {g : Int} {b : DealRow} {rest : List DealRow}
    (a : DealRow) (h : lastGapPos g (b :: rest) = none) :
    lastGapPos g (a :: b :: rest) = if g ≤ dayGap a b then some 0 else none := by
  unfold lastGapPos
  rw [h]

/-- No recorded gap index means every consecutive gap is below the
threshold. -/
theorem lastGapPos_none_iff (g : Int) :
    ∀ l : List DealRow,
      lastGapPos g l = none ↔ l.Chain' (fun a b => dayGap a b < g)
  | [] => by simp [lastGapPos]
  | [a] => by simp [lastGapPos]
  | a :: b :: rest => by
    rw [List.chain'_cons]
    cases hrec : lastGapPos g (b :: rest) with
    | some j =>
      rw [lastGapPos_cons2_some a hrec]
      constructor
      · intro h; cases h
      · rintro ⟨hab, hchain⟩
        exfalso
        have hn := (lastGapPos_none_iff g (b :: rest)).2 hchain
        rw [hrec] at hn
        cases hn
    | none =>
      rw [lastGapPos_cons2_none a hrec]
      constructor
      · intro h
        split at h
        · cases h
        · rename_i hng
          exact ⟨by omega, (lastGapPos_none_iff g (b :: rest)).1 hrec⟩
      · rintro ⟨hab, _⟩
        rw [if_neg (by omega)]

/-- A recorded gap index decomposes the list: the suffix after the gap
pair has no further qualifying gap. -/
theorem lastGapPos_some_decomp (g : Int) :
    ∀ (l : List DealRow) (i : Nat), lastGapPos g l = some i →
      ∃ pre x y tl, l = pre ++ x :: y :: tl ∧ pre.length = i ∧
        g ≤ dayGap x y ∧ (y :: tl).Chain' (fun a b => dayGap a b < g) ∧
        l.drop (i + 1) = y :: tl
  | [], i, h => by simp [lastGapPos] at h
  | [a], i, h => by simp [lastGapPos] at h
  | a :: b :: rest, i, h => by
    cases hrec : lastGapPos g (b :: rest) with
    | some j =>
      rw [lastGapPos_cons2_some a hrec] at h
      injection h with h
      obtain ⟨pre, x, y, tl, hsplit, hlen, hgap, hchain, hdrop⟩ :=
        lastGapPos_some_decomp g (b :: rest) j hrec
      refine ⟨a :: pre, x, y, tl, by rw [List.cons_append, ← hsplit],
        by simp [hlen, ← h], hgap, hchain, ?_⟩
      rw [← h, List.drop_succ_cons]
      exact hdrop
    | none =>
      rw [lastGapPos_cons2_none a hrec] at h
      split at h
      · rename_i hgap
        injection h with h
        refine ⟨[], a, b, rest, rfl, by simp [← h], hgap,
          (lastGapPos_none_iff g _).1 hrec, ?_⟩
        rw [← h]
        rfl
      · cases h

/-- `filter_deals_after_gap` on short inputs. -/
theorem fdag_short {deals : List DealRow} {g : Int} (h : deals.length < 2) :
    filter_deals_after_gap deals g = deals := by
  unfold filter_deals_after_gap
  rw [if_pos h]

/-- `filter_deals_after_gap` when no qualifying gap exists. -/
theorem fdag_none {deals : List DealRow} {g : Int} (h2 : ¬ deals.length < 2)
    (h : lastGapPos g (sortByTs deals) = none) :
    filter_deals_after_gap deals g = sortByTs deals := by
  unfold filter_deals_after_gap
  rw [if_neg h2, h]

/-- `filter_deals_after_gap` when the last qualifying gap is at `i`. -/
theorem fdag_some {deals : List DealRow} {g : Int} {i : Nat} (h2 : ¬ deals.length < 2)
    (h : lastGapPos g (sortByTs deals) = some i) :
    filter_deals_after_gap deals g = (sortByTs deals).drop (i + 1) := by
  unfold filter_deals_after_gap
  rw [if_neg h2, h]

/-- C9: the gap filter sorts by timestamp and keeps exactly the suffix
strictly after the last consecutive pair at least `gap_days` apart (all
records when no such pair exists); with timestamps `[day0, day1,
day10]`, `gap_days = 5` keeps only `day10` and `gap_days = 15` keeps
all three. -/
theorem C9_gap_segmentation (deals : List DealRow) (g : Int) :
    ((sortByTs deals).Perm deals ∧
     (sortByTs deals).Pairwise (fun a b => dtLeB a.timestamp b.timestamp = true)) ∧
    (deals.length < 2 → filter_deals_after_gap deals g = deals) ∧
    (2 ≤ deals.length →
      ((sortByTs deals).Chain' (fun a b => dayGap a b < g) →
        filter_deals_after_gap deals g = sortByTs deals) ∧
      (¬ (sortByTs deals).Chain' (fun a b => dayGap a b < g) →
        ∃ pre x y tl,
          sortByTs deals = pre ++ x :: y :: tl ∧
          filter_deals_after_gap deals g = y :: tl ∧
          g ≤ dayGap x y ∧
          (y :: tl).Chain' (fun a b => dayGap a b < g))) ∧
    (filter_deals_after_gap
        [⟨⟨2026, 1, 1, 0⟩, some "A", "A", "m", "c", 1, 1⟩,
         ⟨⟨2026, 1, 2, 0⟩, some "B", "B", "m", "c", 1, 1⟩,
         ⟨⟨2026, 1, 11, 0⟩, some "C", "C", "m", "c", 1, 1⟩] 5 =
       [⟨⟨2026, 1, 11, 0⟩, some "C", "C", "m", "c", 1, 1⟩] ∧
     filter_deals_after_gap
        [⟨⟨2026, 1, 1, 0⟩, some "A", "A", "m", "c", 1, 1⟩,
         ⟨⟨2026, 1, 2, 0⟩, some "B", "B", "m", "c", 1, 1⟩,
         ⟨⟨2026, 1, 11, 0⟩, some "C", "C", "m", "c", 1, 1⟩] 15 =
       [⟨⟨2026, 1, 1, 0⟩, some "A", "A", "m", "c", 1, 1⟩,
        ⟨⟨2026, 1, 2, 0⟩, some "B", "B", "m", "c", 1, 1⟩,
        ⟨⟨2026, 1, 11, 0⟩, some "C", "C", "m", "c", 1, 1⟩]) := by
  refine ⟨⟨sortByTs_perm deals, sortByTs_sorted deals⟩, fun h => fdag_short h,
    fun h2 => ⟨?_, ?_⟩, by decide, by decide⟩
  · intro hchain
    exact fdag_none (by omega) ((lastGapPos_none_iff g _).2 hchain)
  · intro hnochain
    cases hl : lastGapPos g (sortByTs deals) with
    | none => exact absurd ((lastGapPos_none_iff g _).1 hl) hnochain
    | some i =>
      obtain ⟨pre, x, y, tl, hsplit, hlen, hgap, hchain, hdrop⟩ :=
        lastGapPos_some_decomp g (sortByTs deals) i hl
      exact ⟨pre, x, y, tl, hsplit, by rw [fdag_some (by omega) hl]; exact hdrop,
        hgap, hchain⟩

/-- Witness for C9 on a one-element list. -/
theorem C9_witness :
    filter_deals_after_gap
      [⟨⟨2026, 1, 1, 0⟩, some "A", "A", "m", "c", 1, 1⟩] 7 =
      [⟨⟨2026, 1, 1, 0⟩, some "A", "A", "m", "c", 1, 1⟩] :=
  (C9_gap_segmentation [⟨⟨2026, 1, 1, 0⟩, some "A", "A", "m", "c", 1, 1⟩] 7).2.1
    (by decide)

/-- The linear month index inverts on valid months. -/
theorem ymOfIndex_monthIndex (y : Int) (m : Nat) (h1 : 1 ≤ m) (h2 : m ≤ 12) :
    ymOfIndex (monthIndex y m) = (y, m) := by
  unfold ymOfIndex monthIndex
  rw [Prod.mk.injEq]
  constructor
  · omega
  · omega

/-- C5: the monthly rotation labels the archive with the previous
calendar month (index one less, rolling the year back in January),
copies the active sheet under that label, clears the active sheet, and
a subsequent query over an interval inside the archived month returns
exactly the archived rows in that interval. -/
theorem C5_archive_and_rotate (st : Store) (now : DT) (s e : DT)
    (hm1 : 1 ≤ now.month) (hm2 : now.month ≤ 12) :
    (monthIndex (archive_and_reset_monthly st now).1.1
        (archive_and_reset_monthly st now).1.2 =
       monthIndex now.year now.month - 1 ∧
     1 ≤ (archive_and_reset_monthly st now).1.2 ∧
     (archive_and_reset_monthly st now).1.2 ≤ 12) ∧
    lookupArchive (archive_and_reset_monthly st now).2
      (archive_and_reset_monthly st now).1 = some st.main ∧
    (archive_and_reset_monthly st now).2.main = [] ∧
    ((s.year, s.month) = (archive_and_reset_monthly st now).1 →
     (e.year, e.month) = (archive_and_reset_monthly st now).1 →
      load_deals_from_date_range (archive_and_reset_monthly st now).2 now s e =
        st.main.filter (fun r => dtLeB s r.timestamp && dtLeB r.timestamp e)) := by
  obtain ⟨Y, M, hym, hidx, hM1, hM2, hneq⟩ :
      ∃ (Y : Int) (M : Nat), (archive_and_reset_monthly st now).1 = (Y, M) ∧
        monthIndex Y M = monthIndex now.year now.month - 1 ∧
        1 ≤ M ∧ M ≤ 12 ∧ ¬ (Y = now.year ∧ M = now.month) := by
    by_cases hc : now.month = 1
    · refine ⟨now.year - 1, 12, ?_, ?_, by omega, by omega, by omega⟩
      · show (if (now.month == 1) = true then ((now.year - 1, 12) : Int × Nat)
              else (now.year, now.month - 1)) = (now.year - 1, 12)
        rw [ite_cond_true (by rw [beq_iff_eq]; exact hc)]
      · unfold monthIndex
        rw [hc]
        omega
    · refine ⟨now.year, now.month - 1, ?_, ?_, by omega, by omega, by omega⟩
      · show (if (now.month == 1) = true then ((now.year - 1, 12) : Int × Nat)
              else (now.year, now.month - 1)) = (now.year, now.month - 1)
        rw [ite_cond_false (by rw [Bool.eq_false_iff, ne_eq, beq_iff_eq]; exact hc)]
      · unfold monthIndex
        omega
  have hlook : lookupArchive (archive_and_reset_monthly st now).2
      (archive_and_reset_monthly st now).1 = some st.main := by
    show (List.find? (fun pr => pr.1 == (archive_and_reset_monthly st now).1)
        (((archive_and_reset_monthly st now).1, st.main) :: st.archives)).map
        (fun pr => pr.2) = some st.main
    rw [List.find?_cons_of_pos _ (by simp)]
    rfl
  refine ⟨⟨by rw [hym]; exact hidx, by rw [hym]; exact hM1, by rw [hym]; exact hM2⟩,
    hlook, rfl, ?_⟩
  intro hs he
  rw [hym] at hs he
  rw [Prod.mk.injEq] at hs he
  obtain ⟨hsy, hsm⟩ := hs
  obtain ⟨hey, hem⟩ := he
  have hidx' := hidx
  unfold monthIndex at hidx'
  have hcond : dtLeB ⟨now.year, now.month, 1, 0⟩ s = false := by
    rw [Bool.eq_false_iff, ne_eq, dtLeB_eq_true_iff]
    dsimp only
    omega
  have hspan : monthsSpanned s e = [(Y, M)] := by
    unfold monthsSpanned
    rw [if_pos (by rw [hsy, hsm, hey, hem])]
    have hn : (monthIndex e.year e.month - monthIndex s.year s.month + 1).toNat = 1 := by
      rw [hsy, hsm, hey, hem]
      omega
    rw [hn, show List.range 1 = [0] from rfl]
    rw [List.map_cons, List.map_nil]
    have harg : monthIndex s.year s.month + ((0 : Nat) : Int) = monthIndex Y M := by
      rw [hsy, hsm]
      omega
    rw [harg, ymOfIndex_monthIndex Y M hM1 hM2]
  have hbe : (((Y, M) : Int × Nat) == (now.year, now.month)) = false := by
    rw [Bool.eq_false_iff, ne_eq, beq_iff_eq, Prod.mk.injEq]
    exact hneq
  rw [hym] at hlook
  unfold load_deals_from_date_range
  rw [ite_cond_false hcond, hspan, List.foldl_cons, List.foldl_nil,
    ite_cond_false hbe, hlook]
  rfl

/-- Witness for C5: one April row archived on May 1st is returned by an
April query against the rotated store. -/
theorem C5_witness :
    load_deals_from_date_range
      (archive_and_reset_monthly
        ⟨[⟨⟨2026, 4, 15, 0⟩, some "U", "Ann", "socal", "blitz-socal", 1, 1⟩], []⟩
        ⟨2026, 5, 1, 600⟩).2
      ⟨2026, 5, 1, 600⟩ ⟨2026, 4, 1, 0⟩ ⟨2026, 4, 30, 86399⟩ =
      [⟨⟨2026, 4, 15, 0⟩, some "U", "Ann", "socal", "blitz-socal", 1, 1⟩].filter
        (fun r => dtLeB ⟨2026, 4, 1, 0⟩ r.timestamp &&
          dtLeB r.timestamp ⟨2026, 4, 30, 86399⟩) :=
  (C5_archive_and_rotate
    ⟨[⟨⟨2026, 4, 15, 0⟩, some "U", "Ann", "socal", "blitz-socal", 1, 1⟩], []⟩
    ⟨2026, 5, 1, 600⟩ ⟨2026, 4, 1, 0⟩ ⟨2026, 4, 30, 86399⟩
    (by decide) (by decide)).2.2.2 (by decide) (by decide)

/-! ## C4: round-trip of append and range query -/

/-- The rows one spanned month contributes in the archived-range branch
of `_load_deals_from_date_range`: the main sheet for the current month,
the archive partition otherwise (nothing when absent). -/
def loadPartition (st : Store) (now : DT) (ym : Int × Nat) : List DealRow :=
  if ym == (now.year, now.month) then st.main
  else (lookupArchive st ym).getD []

/-- A record is stored exactly once and in the partition matching its
timestamp's month: either once in the active sheet with a current-month
timestamp (and in no archive), or once in the archive partition labeled
with its (strictly past) month, in no other partition and not in the
active sheet.  These are the states reachable by `append_deal` and
`archive_and_reset_monthly`. -/
def storedOnceB (st : Store) (now : DT) (r : DealRow) : Bool :=
  (r.timestamp.year == now.year && r.timestamp.month == now.month &&
    st.main.count r == 1 &&
    st.archives.all (fun pr => !(decide (r ∈ pr.2))))
  ||
  (decide (monthIndex r.timestamp.year r.timestamp.month <
      monthIndex now.year now.month) &&
    !(decide (r ∈ st.main)) &&
    (match lookupArchive st (r.timestamp.year, r.timestamp.month) with
     | some rows => rows.count r == 1
     | none => false) &&
    st.archives.all (fun pr => pr.1 == (r.timestamp.year, r.timestamp.month) ||
      !(decide (r ∈ pr.2))))

/-- A successful partition lookup comes from some stored entry with the
looked-up label. -/
theorem lookupArchive_some {st : Store} {ym : Int × Nat} {rows : List DealRow}
    (h : lookupArchive st ym = some rows) :
    ∃ pr, pr ∈ st.archives ∧ (pr.1 == ym) = true ∧ pr.2 = rows := by
  unfold lookupArchive at h
  cases hf : List.find? (fun pr => pr.1 == ym) st.archives with
  | none => rw [hf] at h; cases h
  | some pr =>
    rw [hf, Option.map_some'] at h
    have hp := List.find?_some hf
    refine ⟨pr, List.mem_of_find?_eq_some hf, hp, ?_⟩
    exact (Option.some.injEq _ _ ▸ h)

/-- Counting inside a filtered list. -/
theorem count_filter_eq {α : Type} [DecidableEq α] (p : α → Bool) (l : List α)
    (a : α) :
    List.count a (List.filter p l) = if p a = true then List.count a l else 0 := by
  by_cases hp : p a = true
  · rw [if_pos hp, List.count_filter hp]
  · rw [if_neg hp, List.count_eq_zero]
    intro hmem
    exact hp (List.of_mem_filter hmem)

/-- Sum of an equality indicator is the count. -/
theorem sum_indicator_eq_count {α : Type} [BEq α] [LawfulBEq α] [DecidableEq α] (a : α) :
    ∀ l : List α, (l.map (fun x => if x = a then 1 else 0)).sum = l.count a
  | [] => rfl
  | x :: t => by
    rw [List.map_cons, List.sum_cons, List.count_cons, sum_indicator_eq_count a t]
    by_cases hx : x = a
    · rw [if_pos hx, if_pos (by rw [beq_iff_eq]; exact hx)]
      omega
    · rw [if_neg hx, if_neg (by rw [beq_iff_eq]; exact hx)]
      omega

/-- Counting through the accumulate-append fold. -/
theorem count_foldl_append {α : Type} [DecidableEq α] (load : (Int × Nat) → List α)
    (a : α) :
    ∀ (span : List (Int × Nat)) (init : List α),
      List.count a (span.foldl (fun acc ym => acc ++ load ym) init) =
        List.count a init + (span.map (fun ym => List.count a (load ym))).sum
  | [], init => by simp
  | ym :: rest, init => by
    rw [List.foldl_cons, count_foldl_append load a rest (init ++ load ym),
      List.count_append, List.map_cons, List.sum_cons]
    omega

/-- The month-loop fold body equals appending `loadPartition`. -/
theorem loadFold_eq (st : Store) (now : DT) :
    ∀ (span : List (Int × Nat)) (init : List DealRow),
      span.foldl (fun acc ym =>
          if ym == (now.year, now.month) then acc ++ st.main
          else match lookupArchive st ym with
            | some rows => acc ++ rows
            | none => acc) init =
        span.foldl (fun acc ym => acc ++ loadPartition st now ym) init
  | [], _ => rfl
  | ym :: rest, init => by
    rw [List.foldl_cons, List.foldl_cons]
    have hstep : (if ym == (now.year, now.month) then init ++ st.main
        else match lookupArchive st ym with
          | some rows => init ++ rows
          | none => init) = init ++ loadPartition st now ym := by
      unfold loadPartition
      cases hb : (ym == ((now.year : Int), now.month)) with
      | true => simp
      | false =>
        simp only [Bool.false_eq_true, if_false]
        cases hl : lookupArchive st ym with
        | some rows => rfl
        | none => exact (List.append_nil init).symm
    rw [hstep]
    exact loadFold_eq st now rest (init ++ loadPartition st now ym)

/-- Comparable datetimes have comparable month indexes. -/
theorem monthIndex_le_of_dtLeB {a b : DT} (hma : 1 ≤ a.month) (hma2 : a.month ≤ 12)
    (hmb : 1 ≤ b.month) (hmb2 : b.month ≤ 12) (h : dtLeB a b = true) :
    monthIndex a.year a.month ≤ monthIndex b.year b.month := by
  rw [dtLeB_eq_true_iff] at h
  unfold monthIndex
  omega

/-- The current-month-start comparison of the query bounds the month
indexes. -/
theorem cm_le_start_of_branch {ny : Int} {nm : Nat} {s : DT}
    (h : dtLeB ⟨ny, nm, 1, 0⟩ s = true) (hnm : 1 ≤ nm) (hnm2 : nm ≤ 12)
    (hsm : 1 ≤ s.month) (hsm2 : s.month ≤ 12) :
    monthIndex ny nm ≤ monthIndex s.year s.month := by
  rw [dtLeB_eq_true_iff] at h
  dsimp only at h
  unfold monthIndex
  omega

/-- The month index of a decoded index is the index itself. -/
theorem monthIndex_ymOfIndex (idx : Int) :
    monthIndex (ymOfIndex idx).1 (ymOfIndex idx).2 = idx := by
  unfold monthIndex ymOfIndex
  dsimp only
  omega

/-- A member of a duplicate-free list is counted once (for any lawful
`BEq`). -/
theorem count_eq_one_of_nodup_mem {α : Type} [BEq α] [LawfulBEq α] {a : α} :
    ∀ {l : List α}, l.Nodup → a ∈ l → List.count a l = 1
  | [], _, hm => absurd hm (List.not_mem_nil a)
  | x :: t, hnd, hm => by
    have hx := List.nodup_cons.1 hnd
    rw [List.count_cons]
    rcases List.mem_cons.1 hm with h1 | h1
    · rw [if_pos (by rw [beq_iff_eq]; exact h1.symm)]
      have hnotin : a ∉ t := by
        rw [h1]
        exact hx.1
      rw [List.count_eq_zero.2 hnotin]
    · have hne : x ≠ a := by
        intro hcon
        rw [hcon] at hx
        exact hx.1 h1
      rw [if_neg (by rw [beq_iff_eq]; exact hne)]
      rw [count_eq_one_of_nodup_mem hx.2 h1]

/-- A month appears in the spanned range exactly once when its index is
between the endpoints' indexes, else not at all. -/
theorem count_monthsSpanned (s e : DT) (y : Int) (m : Nat)
    (hm : 1 ≤ m ∧ m ≤ 12) :
    List.count (y, m) (monthsSpanned s e) =
      if monthIndex s.year s.month ≤ monthIndex y m ∧
          monthIndex y m ≤ monthIndex e.year e.month then 1 else 0 := by
  unfold monthsSpanned
  by_cases hse : monthIndex s.year s.month ≤ monthIndex e.year e.month
  · rw [if_pos hse]
    have hinj : Function.Injective
        (fun (i : Nat) => ymOfIndex (monthIndex s.year s.month + (i : Int))) := by
      intro a b hab
      have ha := monthIndex_ymOfIndex (monthIndex s.year s.month + (a : Int))
      have hb := monthIndex_ymOfIndex (monthIndex s.year s.month + (b : Int))
      rw [show ymOfIndex (monthIndex s.year s.month + (a : Int)) =
        ymOfIndex (monthIndex s.year s.month + (b : Int)) from hab] at ha
      rw [hb] at ha
      omega
    have hnd : ((List.range (monthIndex e.year e.month -
        monthIndex s.year s.month + 1).toNat).map
        (fun (i : Nat) => ymOfIndex (monthIndex s.year s.month + (i : Int)))).Nodup :=
      List.Nodup.map hinj (List.nodup_range _)
    have hmem : ((y, m) ∈ (List.range (monthIndex e.year e.month -
        monthIndex s.year s.month + 1).toNat).map
        (fun (i : Nat) => ymOfIndex (monthIndex s.year s.month + (i : Int)))) ↔
        (monthIndex s.year s.month ≤ monthIndex y m ∧
          monthIndex y m ≤ monthIndex e.year e.month) := by
      rw [List.mem_map]
      constructor
      · rintro ⟨i, hi, hf⟩
        rw [List.mem_range] at hi
        have hidx := monthIndex_ymOfIndex (monthIndex s.year s.month + (i : Int))
        rw [hf] at hidx
        dsimp only at hidx
        omega
      · rintro ⟨h1, h2⟩
        refine ⟨(monthIndex y m - monthIndex s.year s.month).toNat, ?_, ?_⟩
        · rw [List.mem_range]
          omega
        · show ymOfIndex (monthIndex s.year s.month +
            (((monthIndex y m - monthIndex s.year s.month).toNat : Nat) : Int)) = (y, m)
          have harg : monthIndex s.year s.month +
              (((monthIndex y m - monthIndex s.year s.month).toNat : Nat) : Int) =
              monthIndex y m := by omega
          rw [harg, ymOfIndex_monthIndex y m hm.1 hm.2]
    by_cases hin : monthIndex s.year s.month ≤ monthIndex y m ∧
        monthIndex y m ≤ monthIndex e.year e.month
    · rw [if_pos hin]
      exact count_eq_one_of_nodup_mem hnd (hmem.2 hin)
    · rw [if_neg hin, List.count_eq_zero]
      intro hmm
      exact hin (hmem.1 hmm)
  · rw [if_neg hse, if_neg (by omega)]
    rfl

/-- C4: for a record stored once in the partition matching its
timestamp's month, a range query returns it exactly once when the
interval contains its timestamp and zero times otherwise; the query
walks the `(year, month)` partitions the interval spans, skipping
absent months. -/
theorem C4_append_query_roundtrip (st : Store) (now s e : DT) (r : DealRow)
    (hmn : 1 ≤ now.month ∧ now.month ≤ 12)
    (hms : 1 ≤ s.month ∧ s.month ≤ 12)
    (hme : 1 ≤ e.month ∧ e.month ≤ 12)
    (hmt : 1 ≤ r.timestamp.month ∧ r.timestamp.month ≤ 12)
    (hstored : storedOnceB st now r = true) :
    List.count r (load_deals_from_date_range st now s e) =
      if (dtLeB s r.timestamp && dtLeB r.timestamp e) = true then 1 else 0 := by
  unfold load_deals_from_date_range
  rw [count_filter_eq]
  cases hpr : (dtLeB s r.timestamp && dtLeB r.timestamp e) with
  | false => simp
  | true =>
    rw [if_pos rfl, if_pos rfl]
    rw [Bool.and_eq_true] at hpr
    obtain ⟨hsr, hre⟩ := hpr
    have hsidx := monthIndex_le_of_dtLeB hms.1 hms.2 hmt.1 hmt.2 hsr
    have heidx := monthIndex_le_of_dtLeB hmt.1 hmt.2 hme.1 hme.2 hre
    unfold storedOnceB at hstored
    rw [Bool.or_eq_true] at hstored
    rcases hstored with hA | hB
    · rw [Bool.and_eq_true, Bool.and_eq_true, Bool.and_eq_true] at hA
      obtain ⟨⟨⟨hAy, hAm⟩, hAcnt⟩, hAarch⟩ := hA
      rw [beq_iff_eq] at hAy hAm hAcnt
      rw [List.all_eq_true] at hAarch
      cases hbr : dtLeB ⟨now.year, now.month, 1, 0⟩ s with
      | true =>
        rw [if_pos rfl]
        exact hAcnt
      | false =>
        rw [if_neg Bool.false_ne_true, loadFold_eq, count_foldl_append]
        have hpt : ∀ ym ∈ monthsSpanned s e,
            List.count r (loadPartition st now ym) =
              (fun ym => if ym = ((now.year, now.month) : Int × Nat)
                then 1 else 0) ym := by
          intro ym _
          dsimp only
          unfold loadPartition
          cases hb : (ym == ((now.year, now.month) : Int × Nat)) with
          | true =>
            rw [if_pos rfl, if_pos (beq_iff_eq.1 hb)]
            exact hAcnt
          | false =>
            rw [if_neg Bool.false_ne_true,
              if_neg (fun hcon => by rw [hcon] at hb; simp at hb)]
            cases hl : lookupArchive st ym with
            | some rows =>
              rw [Option.getD_some, List.count_eq_zero]
              intro hmem
              obtain ⟨pr, hpm, hpe, hp2⟩ := lookupArchive_some hl
              have hno := hAarch pr hpm
              rw [Bool.not_eq_true', decide_eq_false_iff_not] at hno
              rw [← hp2] at hmem
              exact hno hmem
            | none => rfl
        rw [List.map_congr_left hpt, sum_indicator_eq_count,
          count_monthsSpanned s e now.year now.month hmn,
          if_pos (by rw [← hAy, ← hAm]; exact ⟨hsidx, heidx⟩), List.count_nil]
    · rw [Bool.and_eq_true, Bool.and_eq_true, Bool.and_eq_true] at hB
      obtain ⟨⟨⟨hBidx, hBmain⟩, hBlook⟩, hBarch⟩ := hB
      rw [decide_eq_true_eq] at hBidx
      rw [Bool.not_eq_true', decide_eq_false_iff_not] at hBmain
      rw [List.all_eq_true] at hBarch
      cases hlk : lookupArchive st (r.timestamp.year, r.timestamp.month) with
      | none =>
        rw [hlk] at hBlook
        simp at hBlook
      | some rows =>
        rw [hlk] at hBlook
        simp only [beq_iff_eq] at hBlook
        cases hbr : dtLeB ⟨now.year, now.month, 1, 0⟩ s with
        | true =>
          exfalso
          have hcm := cm_le_start_of_branch hbr hmn.1 hmn.2 hms.1 hms.2
          omega
        | false =>
          rw [if_neg Bool.false_ne_true, loadFold_eq, count_foldl_append]
          have hpt : ∀ ym ∈ monthsSpanned s e,
              List.count r (loadPartition st now ym) =
                (fun ym => if ym = ((r.timestamp.year, r.timestamp.month) : Int × Nat)
                  then 1 else 0) ym := by
            intro ym _
            dsimp only
            unfold loadPartition
            cases hb : (ym == ((now.year, now.month) : Int × Nat)) with
            | true =>
              have hymnow := beq_iff_eq.1 hb
              rw [if_pos rfl,
                if_neg (fun hcon => by
                  rw [hymnow, Prod.mk.injEq] at hcon
                  have hix : monthIndex now.year now.month =
                      monthIndex r.timestamp.year r.timestamp.month := by
                    rw [hcon.1, hcon.2]
                  omega),
                List.count_eq_zero]
              exact hBmain
            | false =>
              rw [if_neg Bool.false_ne_true]
              by_cases hymts : ym = (r.timestamp.year, r.timestamp.month)
              · rw [if_pos hymts]
                have hlook2 : lookupArchive st ym = some rows := by
                  rw [hymts]
                  exact hlk
                rw [hlook2, Option.getD_some]
                exact hBlook
              · rw [if_neg hymts]
                cases hl : lookupArchive st ym with
                | some rows' =>
                  rw [Option.getD_some, List.count_eq_zero]
                  intro hmem
                  obtain ⟨pr, hpm, hpe, hp2⟩ := lookupArchive_some hl
                  have harch := hBarch pr hpm
                  rw [Bool.or_eq_true] at harch
                  rcases harch with hc1 | hc2
                  · exact hymts (by rw [← beq_iff_eq.1 hpe, beq_iff_eq.1 hc1])
                  · rw [Bool.not_eq_true', decide_eq_false_iff_not] at hc2
                    rw [← hp2] at hmem
                    exact hc2 hmem
                | none => rfl
          rw [List.map_congr_left hpt, sum_indicator_eq_count,
            count_monthsSpanned s e r.timestamp.year r.timestamp.month hmt,
            if_pos ⟨hsidx, heidx⟩, List.count_nil]

/-- Witness for C4: an April-archived record is returned exactly once by
an April-to-May query issued in June (May has no partition and is
skipped), matching the interval-membership indicator. -/
theorem C4_witness :
    List.count
      (⟨⟨2026, 4, 15, 0⟩, some "U", "Ann", "socal", "blitz-socal", 1, 1⟩ : DealRow)
      (load_deals_from_date_range
        ⟨[], [((2026, 4),
          [⟨⟨2026, 4, 15, 0⟩, some "U", "Ann", "socal", "blitz-socal", 1, 1⟩])]⟩
        ⟨2026, 6, 20, 0⟩ ⟨2026, 4, 1, 0⟩ ⟨2026, 5, 2, 0⟩) =
      if (dtLeB ⟨2026, 4, 1, 0⟩ (⟨2026, 4, 15, 0⟩ : DT) &&
          dtLeB (⟨2026, 4, 15, 0⟩ : DT) ⟨2026, 5, 2, 0⟩) = true then 1 else 0 :=
  C4_append_query_roundtrip
    ⟨[], [((2026, 4),
      [⟨⟨2026, 4, 15, 0⟩, some "U", "Ann", "socal", "blitz-socal", 1, 1⟩])]⟩
    ⟨2026, 6, 20, 0⟩ ⟨2026, 4, 1, 0⟩ ⟨2026, 5, 2, 0⟩
    ⟨⟨2026, 4, 15, 0⟩, some "U", "Ann", "socal", "blitz-socal", 1, 1⟩
    (by decide) (by decide) (by decide) (by decide) (by decide)
